import Mathlib

/-!
Verification of the incremental trading-signal pipeline of `app_anon.py`:
candle aggregation, Fibonacci/ATR indicator calculation
(`FibonacciCalculator.calculate_fib_levels` plus the ATR and fib-entry code
in `update_chart_and_indicators`), the per-record trigger state machine
(`create_enhanced_record`) and the incremental record store
(`update_price_savant_incremental`, `save_latest_trigger_data`,
`get_last_processed_count`).

Machine floats are modelled as exact rationals; JSON null / missing values
as `Option`; the pandas NaN propagation rules of the source (rolling
windows with full `min_periods`, row-wise max skipping NaN) are reproduced
faithfully.
-/

set_option linter.unusedVariables false

/-- A raw price sample from the price feed: an entry of
`token_price_data_v3.json`.  Timestamps are seconds. -/
structure PricePoint where
  timestamp : Nat
  price : ℚ
deriving DecidableEq, Repr

/-- One 5-minute OHLC candle, as produced by
`df['price'].resample('5min').ohlc()` followed by `dropna` in
`update_chart_and_indicators`.  `bucket` is the bucket start time. -/
structure Candle where
  bucket : Nat
  open_ : ℚ
  high : ℚ
  low : ℚ
  close : ℚ
deriving DecidableEq, Repr

/-- One entry of the `fib_data_map` dictionary built in
`update_price_savant_incremental` (lines 447-461): the per-candle OHLC and
indicator values, with `None` for NaN or missing columns. -/
structure IndicatorRow where
  open_ : Option ℚ
  high : Option ℚ
  low : Option ℚ
  close : Option ℚ
  wma_fib_0 : Option ℚ
  wma_fib_50 : Option ℚ
  fib_entry : Option ℚ
  atr : Option ℚ
  highest_high : Option ℚ
  lowest_low : Option ℚ
deriving DecidableEq, Repr

/-- The dashboard trade state (`trade-state-storage` of the Dash app),
passed to `create_enhanced_record` as `trade_state`. -/
structure TradeState where
  in_position : Bool
  trigger_on : Bool
  entry_price : Option ℚ
  position_size : ℚ
deriving DecidableEq, Repr

/-- The wallet-analysis summary produced by `get_wallet_analysis` (only the
fields read by `create_enhanced_record`). -/
structure WalletData where
  has_position : Bool
  pnl_percentage : ℚ
  pnl_sol : ℚ
  avg_entry_price_sol : ℚ
  current_tokens : ℚ
deriving DecidableEq, Repr

/-- An enriched record appended to `price_savant_anon.json` by
`create_enhanced_record`.  `trade_fields` is `some` exactly when the four
`current_in_position` / `current_trigger_on` / `entry_price` /
`position_size` keys are present (the full-indicator branch of the source
returns early at line 367, before those keys are added). -/
structure EnrichedRecord where
  timestamp : Nat
  price : ℚ
  ohlc_open : Option ℚ
  ohlc_high : Option ℚ
  ohlc_low : Option ℚ
  ohlc_close : Option ℚ
  wma_fib_0 : Option ℚ
  wma_fib_50 : Option ℚ
  fib_entry : Option ℚ
  atr : Option ℚ
  highest_high_42 : Option ℚ
  lowest_low_42 : Option ℚ
  trigger_armed : Option Bool
  buy_signal : Bool
  reset_threshold : Option ℚ
  price_above_reset : Option Bool
  price_below_entry : Option Bool
  price_above_fib_0 : Option Bool
  in_buy_zone : Option Bool
  wallet_position_pnl_percentage : Option ℚ
  wallet_position_pnl_sol : Option ℚ
  wallet_entry_price_sol : Option ℚ
  wallet_total_tokens : Option ℚ
  wallet_drop_to_entry_pct : Option ℚ
  trade_fields : Option TradeState
deriving DecidableEq, Repr

/-- The persistent pipeline state surrounding
`update_price_savant_incremental`: the contents of
`price_savant_anon.json` (`store`), the global `last_processed_count`
cursor, and the contents of `trigger2.json` (`snapshot`). -/
structure PipelineState where
  store : List EnrichedRecord
  count : Nat
  snapshot : Option EnrichedRecord
deriving DecidableEq, Repr

/-! ## List helpers -/

/-- Maximum of a list of rationals (0 for the empty list; only applied to
nonempty lists). -/
def listMax : List ℚ → ℚ
  | [] => 0
  | x :: xs => xs.foldl max x

/-- Minimum of a list of rationals (0 for the empty list; only applied to
nonempty lists). -/
def listMin : List ℚ → ℚ
  | [] => 0
  | x :: xs => xs.foldl min x

/-- Insert a key into a sorted list of bucket keys. -/
def insertKey (x : Nat) : List Nat → List Nat
  | [] => [x]
  | y :: ys => if x ≤ y then x :: y :: ys else y :: insertKey x ys

/-- Sort bucket keys ascending (the order in which `resample` emits
candles). -/
def sortKeys : List Nat → List Nat
  | [] => []
  | x :: xs => insertKey x (sortKeys xs)

/-! ## Candle aggregation (`update_chart_and_indicators`, lines 562-566) -/

/-- Floor a timestamp to its 5-minute bucket
(`record_time.floor('5min')`, in seconds). -/
def bucketOf (ts : Nat) : Nat := ts / 300 * 300

/-- Fallback candle, never used on in-range indices. -/
def cdefault : Candle := ⟨0, 0, 0, 0, 0⟩

/-- Fallback price point. -/
def pdefault : PricePoint := ⟨0, 0⟩

/-- The OHLC candle of one 5-minute bucket: open is the first sample of
the bucket, close the last, high/low the max/min. -/
def mkCandle (key : Nat) (group : List PricePoint) : Candle :=
  { bucket := key
    open_ := (group.headD pdefault).price
    high := listMax (group.map (fun p => p.price))
    low := listMin (group.map (fun p => p.price))
    close := ((group.getLast?).getD pdefault).price }

/-- `df['price'].resample('5min').ohlc()` followed by `dropna`: the sorted
nonempty buckets, each aggregated into one candle. -/
def buildCandles (pts : List PricePoint) : List Candle :=
  (sortKeys ((pts.map (fun p => bucketOf p.timestamp)).dedup)).map
    (fun k => mkCandle k (pts.filter (fun p => bucketOf p.timestamp = k)))

/-! ## Indicator calculation
(`FibonacciCalculator.calculate_fib_levels`, lines 259-268, and the
ATR / fib-entry block of `update_chart_and_indicators`, lines 571-586).

Each per-index function returns `none` exactly where the corresponding
pandas column holds NaN (or is absent).  A rolling window of width `w`
ending at row `i` is the index range `[i+1-w, i]`; with pandas'
default `min_periods` the result is NaN unless the window is full and
NaN-free. -/

/-- `df_copy['highest_high'] = df_copy['high'].rolling(window=42).max()`,
guarded by `len(df) < 66` (the short branch never creates the column). -/
def hhAt (cs : List Candle) (i : Nat) : Option ℚ :=
  if 42 ≤ i + 1 ∧ i < cs.length ∧ 66 ≤ cs.length then
    some (listMax ((List.range 42).map (fun j => (cs.getD (i + 1 - 42 + j) cdefault).high)))
  else none

/-- `df_copy['lowest_low'] = df_copy['low'].rolling(window=42).min()`,
guarded by `len(df) < 66`. -/
def llAt (cs : List Candle) (i : Nat) : Option ℚ :=
  if 42 ≤ i + 1 ∧ i < cs.length ∧ 66 ≤ cs.length then
    some (listMin ((List.range 42).map (fun j => (cs.getD (i + 1 - 42 + j) cdefault).low)))
  else none

/-- Rolling mean of width `w` over an optional-valued column: NaN unless
the window is full and NaN-free, else the sum divided by `w`. -/
def rollMeanOpt (f : Nat → Option ℚ) (w i : Nat) : Option ℚ :=
  if w ≤ i + 1 ∧ ((List.range w).map (fun j => f (i + 1 - w + j))).all Option.isSome then
    some ((((List.range w).map (fun j => (f (i + 1 - w + j)).getD 0)).sum) / (w : ℚ))
  else none

/-- `df_copy['wma_fib_0'] = df_copy['lowest_low'].rolling(window=24).mean()`. -/
def wma0At (cs : List Candle) (i : Nat) : Option ℚ :=
  rollMeanOpt (llAt cs) 24 i

/-- The per-row midpoint
`highest_high - ((highest_high - lowest_low) * 0.5)`. -/
def envMidAt (cs : List Candle) (i : Nat) : Option ℚ :=
  match hhAt cs i, llAt cs i with
  | some hh, some ll => some (hh - (hh - ll) * (1/2))
  | _, _ => none

/-- `df_copy['wma_fib_50']`: the rolling 24-mean of the midpoint column. -/
def wma50At (cs : List Candle) (i : Nat) : Option ℚ :=
  rollMeanOpt (envMidAt cs) 24 i

/-- True Range of row `i`
(`pd.concat([high_low, high_prev_close, low_prev_close], axis=1).max(axis=1)`,
lines 572-575).  The row-wise max skips NaN, so the first row's True
Range is plain `high - low` (its two previous-close terms are NaN). -/
def trAt (cs : List Candle) (i : Nat) : ℚ :=
  match i with
  | 0 => (cs.getD 0 cdefault).high - (cs.getD 0 cdefault).low
  | j + 1 =>
    max ((cs.getD (j + 1) cdefault).high - (cs.getD (j + 1) cdefault).low)
      (max |(cs.getD (j + 1) cdefault).high - (cs.getD j cdefault).close|
        |(cs.getD (j + 1) cdefault).low - (cs.getD j cdefault).close|)

/-- `df_with_fibs['atr'] = tr.rolling(window=ATR_PERIOD).mean()` with
`ATR_PERIOD = 14`.  Computed outside the 66-candle guard. -/
def atrAt (cs : List Candle) (i : Nat) : Option ℚ :=
  if 14 ≤ i + 1 then
    some ((((List.range 14).map (fun j => trAt cs (i + 1 - 14 + j))).sum) / (14 : ℚ))
  else none

/-- `fib_entry = wma_fib_0 - atr * 1.5`, then
`np.maximum(fib_entry, wma_fib_0 * 0.85)` (lines 578-586).  `np.maximum`
propagates NaN, so the result is NaN whenever `wma_fib_0` or `atr` is. -/
def fibEntryAt (cs : List Candle) (i : Nat) : Option ℚ :=
  match wma0At cs i, atrAt cs i with
  | some w0, some a => some (max (w0 - a * (3/2)) (w0 * (17/20)))
  | _, _ => none

/-- The `fib_data_map` entry of candle `i`: the row of `df_with_fibs`
converted with `float(...) if not pd.isna(...) else None`, the
`highest_high` / `lowest_low` columns absent (hence `None`) below 66
candles. -/
def rowAt (cs : List Candle) (i : Nat) : IndicatorRow :=
  { open_ := some (cs.getD i cdefault).open_
    high := some (cs.getD i cdefault).high
    low := some (cs.getD i cdefault).low
    close := some (cs.getD i cdefault).close
    wma_fib_0 := wma0At cs i
    wma_fib_50 := wma50At cs i
    fib_entry := fibEntryAt cs i
    atr := atrAt cs i
    highest_high := hhAt cs i
    lowest_low := llAt cs i }

/-- All indicator rows, one per candle. -/
def calcIndicators (cs : List Candle) : List IndicatorRow :=
  (List.range cs.length).map (rowAt cs)

/-- Dictionary lookup in `fib_data_map`: find the candle with the given
bucket key and return its row. -/
def lookupRow (cs : List Candle) (rows : List IndicatorRow) (key : Nat) : Option IndicatorRow :=
  match cs, rows with
  | c :: cs', r :: rs' => if c.bucket = key then some r else lookupRow cs' rs' key
  | _, _ => none

/-- The `fib_data_map` derived from a full price history: candles
recomputed from scratch, one indicator row per candle, keyed by bucket
start time. -/
def fibMapOf (pts : List PricePoint) (key : Nat) : Option IndicatorRow :=
  lookupRow (buildCandles pts) (calcIndicators (buildCandles pts)) key

/-! ## Enhanced record creation (`create_enhanced_record`, lines 284-411) -/

/-- The five wallet fields added in the full-indicator branch
(lines 343-364). -/
def walletFields (wallet : Option WalletData) (fe price : ℚ) :
    Option ℚ × Option ℚ × Option ℚ × Option ℚ × Option ℚ :=
  match wallet with
  | some wd =>
    if wd.has_position then
      let drop : ℚ := if fe ≠ 0 ∧ fe < price then (price - fe) / price * 100 else 0
      (some wd.pnl_percentage, some wd.pnl_sol, some wd.avg_entry_price_sol,
        some wd.current_tokens, some drop)
    else (none, none, none, none, none)
  | none => (none, none, none, none, none)

/-- Record of the "no matching OHLC window" branch (lines 376-385): every
derived field null, `buy_signal` false, trade-state fields present. -/
def recNoWindow (p : PricePoint) (tstate : TradeState) : EnrichedRecord :=
  { timestamp := p.timestamp, price := p.price
    ohlc_open := none, ohlc_high := none, ohlc_low := none, ohlc_close := none
    wma_fib_0 := none, wma_fib_50 := none, fib_entry := none, atr := none
    highest_high_42 := none, lowest_low_42 := none
    trigger_armed := none, buy_signal := false, reset_threshold := none
    price_above_reset := none, price_below_entry := none
    price_above_fib_0 := none, in_buy_zone := none
    wallet_position_pnl_percentage := none, wallet_position_pnl_sol := none
    wallet_entry_price_sol := none, wallet_total_tokens := none
    wallet_drop_to_entry_pct := none
    trade_fields := some tstate }

/-- Record of the null-indicator branch (lines 369-374): the window was
found but `wma_fib_0` or `fib_entry` is null; the OHLC/indicator values of
the window are kept, the trigger fields are null, `buy_signal` is false,
trade-state fields present. -/
def recNullIndicator (p : PricePoint) (fib : IndicatorRow) (tstate : TradeState) :
    EnrichedRecord :=
  { timestamp := p.timestamp, price := p.price
    ohlc_open := fib.open_, ohlc_high := fib.high, ohlc_low := fib.low
    ohlc_close := fib.close
    wma_fib_0 := fib.wma_fib_0, wma_fib_50 := fib.wma_fib_50
    fib_entry := fib.fib_entry, atr := fib.atr
    highest_high_42 := fib.highest_high, lowest_low_42 := fib.lowest_low
    trigger_armed := none, buy_signal := false, reset_threshold := none
    price_above_reset := none, price_below_entry := none
    price_above_fib_0 := none, in_buy_zone := none
    wallet_position_pnl_percentage := none, wallet_position_pnl_sol := none
    wallet_entry_price_sol := none, wallet_total_tokens := none
    wallet_drop_to_entry_pct := none
    trade_fields := some tstate }

/-- The full-indicator branch (lines 315-367): trigger transition, buy
signal, derived comparisons (with Python truthiness on 0.0), wallet
fields, and the early `return enhanced_record, trigger_armed` that skips
the trade-state keys. -/
def createFull (p : PricePoint) (fib : IndicatorRow) (w0 fe : ℚ)
    (wallet : Option WalletData) (prev : Option Bool) : EnrichedRecord × Option Bool :=
  let rt : ℚ := w0 * (21/20)
  let armed0 : Bool := prev.getD false
  let armed : Bool := if rt < p.price then false else if p.price < fe then true else armed0
  let buy : Bool := armed && decide (w0 < p.price)
  let wf := walletFields wallet fe p.price
  ({ timestamp := p.timestamp, price := p.price
     ohlc_open := fib.open_, ohlc_high := fib.high, ohlc_low := fib.low
     ohlc_close := fib.close
     wma_fib_0 := some w0, wma_fib_50 := fib.wma_fib_50
     fib_entry := some fe, atr := fib.atr
     highest_high_42 := fib.highest_high, lowest_low_42 := fib.lowest_low
     trigger_armed := some armed, buy_signal := buy, reset_threshold := some rt
     price_above_reset := if rt ≠ 0 then some (decide (rt < p.price)) else none
     price_below_entry := if fe ≠ 0 then some (decide (p.price < fe)) else none
     price_above_fib_0 := if w0 ≠ 0 then some (decide (w0 < p.price)) else none
     in_buy_zone := if fe ≠ 0 ∧ w0 ≠ 0 then some (decide (fe ≤ p.price ∧ p.price ≤ w0)) else none
     wallet_position_pnl_percentage := wf.1, wallet_position_pnl_sol := wf.2.1
     wallet_entry_price_sol := wf.2.2.1, wallet_total_tokens := wf.2.2.2.1
     wallet_drop_to_entry_pct := wf.2.2.2.2
     trade_fields := none }, some armed)

/-- `create_enhanced_record(price_record, fib_data_map, trade_state,
previous_trigger_state, wallet_data)`: returns the enriched record and the
trigger state handed to the next record. -/
def createEnhancedRecord (p : PricePoint) (fm : Nat → Option IndicatorRow)
    (tstate : TradeState) (wallet : Option WalletData) (prev : Option Bool) :
    EnrichedRecord × Option Bool :=
  match fm (bucketOf p.timestamp) with
  | none => (recNoWindow p tstate, prev)
  | some fib =>
    match fib.wma_fib_0, fib.fib_entry with
    | some w0, some fe => createFull p fib w0 fe wallet prev
    | none, _ => (recNullIndicator p fib tstate, prev)
    | some _, none => (recNullIndicator p fib tstate, prev)

/-- The sequential loop of `update_price_savant_incremental`
(lines 483-498): process the new records in order, threading the trigger
state. -/
def processRecords (pts : List PricePoint) (fm : Nat → Option IndicatorRow)
    (tstate : TradeState) (wallet : Option WalletData) (prev : Option Bool) :
    List EnrichedRecord × Option Bool :=
  match pts with
  | [] => ([], prev)
  | p :: rest =>
    let step := createEnhancedRecord p fm tstate wallet prev
    let tail := processRecords rest fm tstate wallet step.2
    (step.1 :: tail.1, tail.2)

/-! ## Incremental record store (`update_price_savant_incremental`,
lines 434-515, plus `save_latest_trigger_data`, lines 414-430) -/

/-- Pipeline state before any record has been persisted. -/
def emptyState : PipelineState := ⟨[], 0, none⟩

/-- The records kept when an update runs: the existing store, unless the
cursor says the store is fresh (`last_processed_count = 0`), in which
case the file is rebuilt from scratch (lines 463-476). -/
def tickExisting (st : PipelineState) : List EnrichedRecord :=
  if 0 < st.count then st.store else []

/-- The recovered trigger seed: the `trigger_armed` field of the last
persisted record when the store is treated as non-fresh (null when the
store is empty or the field is null), else DISARMED (lines 464-476). -/
def tickSeed (st : PipelineState) : Option Bool :=
  if 0 < st.count then st.store.getLast?.bind (fun r => r.trigger_armed) else some false

/-- The newly processed suffix `original_data[last_processed_count:]`
(lines 479-498). -/
def tickNew (st : PipelineState) (history : List PricePoint)
    (fm : Nat → Option IndicatorRow) (tstate : TradeState)
    (wallet : Option WalletData) : List EnrichedRecord :=
  (processRecords (history.drop st.count) fm tstate wallet (tickSeed st)).1

/-- The store written back to `price_savant_anon.json` (line 501). -/
def tickStore (st : PipelineState) (history : List PricePoint)
    (fm : Nat → Option IndicatorRow) (tstate : TradeState)
    (wallet : Option WalletData) : List EnrichedRecord :=
  tickExisting st ++ tickNew st history fm tstate wallet

/-- The snapshot written to `trigger2.json` by `save_latest_trigger_data`:
the tail record of the written store, the old snapshot when there is
nothing to write (lines 414-430, 505). -/
def tickSnapshot (st : PipelineState) (history : List PricePoint)
    (fm : Nat → Option IndicatorRow) (tstate : TradeState)
    (wallet : Option WalletData) : Option EnrichedRecord :=
  if (tickStore st history fm tstate wallet).isEmpty then st.snapshot
  else (tickStore st history fm tstate wallet).getLast?

/-- One incremental update (`update_price_savant_incremental`): early
return when there is nothing new; otherwise recover trigger-state
continuity, process the new suffix, append, refresh `trigger2.json`
with the tail record and advance the cursor. -/
def tick (st : PipelineState) (history : List PricePoint)
    (fm : Nat → Option IndicatorRow) (tstate : TradeState)
    (wallet : Option WalletData) : PipelineState :=
  if history.length ≤ st.count then st
  else
    { store := tickStore st history fm tstate wallet
      count := history.length
      snapshot := tickSnapshot st history fm tstate wallet }

/-- One full pipeline tick as performed by `update_chart_and_indicators`:
the indicator map is recomputed from the complete current history and
passed to the incremental update. -/
def tickPipeline (st : PipelineState) (history : List PricePoint)
    (tstate : TradeState) (wallet : Option WalletData) : PipelineState :=
  tick st history (fibMapOf history) tstate wallet

/-! ## Concrete inputs used by witnesses and counterexamples -/

/-- A neutral dashboard trade state. -/
def tstate0 : TradeState := ⟨false, false, none, 0⟩

/-- A fully populated indicator row with `wma_fib_0 = 10` and
`fib_entry = 5`. -/
def fibRowW : IndicatorRow :=
  ⟨some 1, some 1, some 1, some 1, some 10, some 10, some 5, some 1, some 1, some 1⟩

/-- An indicator row whose `wma_fib_0` and `fib_entry` are null (an early
bucket below the rolling-window horizon). -/
def rowNullW : IndicatorRow :=
  ⟨some 1, some 1, some 1, some 1, none, none, none, some 1, none, none⟩

/-- A constant indicator map used by witnesses. -/
def fmW : Nat → Option IndicatorRow := fun _ => some fibRowW

/-- Two price points falling in the same 5-minute bucket. -/
def ptsPair : List PricePoint := [⟨0, 1⟩, ⟨1, 2⟩]

/-- 14 flat candles (all prices 1). -/
def cs14flat : List Candle := (List.range 14).map (fun i => ⟨300 * i, 1, 1, 1, 1⟩)

/-- 14 candles with high 3, low 1, close 2. -/
def cs14wide : List Candle := (List.range 14).map (fun i => ⟨300 * i, 2, 3, 1, 2⟩)

/-- 66 flat candles (all prices 1). -/
def cs66flat : List Candle := (List.range 66).map (fun i => ⟨300 * i, 1, 1, 1, 1⟩)

/-- 66 price points, one per 5-minute bucket, price 1. -/
def pts66 : List PricePoint := (List.range 66).map (fun i => ⟨300 * i, 1⟩)

/-- The indicator row of the last candle built from `pts66`: flat at 1,
with `atr = 0`. -/
def fibW66 : IndicatorRow :=
  ⟨some 1, some 1, some 1, some 1, some 1, some 1, some 1, some 0, some 1, some 1⟩

/-! ## Helper lemmas about record processing -/

theorem processRecords_append (a b : List PricePoint) (fm : Nat → Option IndicatorRow)
    (tstate : TradeState) (wallet : Option WalletData) (prev : Option Bool) :
    processRecords (a ++ b) fm tstate wallet prev =
      ((processRecords a fm tstate wallet prev).1 ++
        (processRecords b fm tstate wallet (processRecords a fm tstate wallet prev).2).1,
       (processRecords b fm tstate wallet (processRecords a fm tstate wallet prev).2).2) := by
  induction a generalizing prev with
  | nil => simp [processRecords]
  | cons p rest ih => simp [processRecords, ih]

theorem processRecords_length (pts : List PricePoint) (fm : Nat → Option IndicatorRow)
    (tstate : TradeState) (wallet : Option WalletData) (prev : Option Bool) :
    (processRecords pts fm tstate wallet prev).1.length = pts.length := by
  induction pts generalizing prev with
  | nil => simp [processRecords]
  | cons p rest ih => simp [processRecords, ih]

theorem createEnhancedRecord_snd_isSome (p : PricePoint) (fm : Nat → Option IndicatorRow)
    (tstate : TradeState) (wallet : Option WalletData) (b : Bool) :
    (createEnhancedRecord p fm tstate wallet (some b)).2.isSome := by
  unfold createEnhancedRecord
  cases h : fm (bucketOf p.timestamp) with
  | none => simp
  | some fib =>
    cases h0 : fib.wma_fib_0 with
    | none => simp [h0]
    | some w0 =>
      cases he : fib.fib_entry with
      | none => simp [h0, he]
      | some fe => simp [h0, he, createFull]

theorem createEnhancedRecord_trigger_agrees (p : PricePoint) (fm : Nat → Option IndicatorRow)
    (tstate : TradeState) (wallet : Option WalletData) (prev : Option Bool) (a : Bool)
    (h : (createEnhancedRecord p fm tstate wallet prev).1.trigger_armed = some a) :
    (createEnhancedRecord p fm tstate wallet prev).2 = some a := by
  unfold createEnhancedRecord at h ⊢
  cases hm : fm (bucketOf p.timestamp) with
  | none => rw [hm] at h; simp [recNoWindow] at h
  | some fib =>
    rw [hm] at h
    cases h0 : fib.wma_fib_0 with
    | none => simp [h0, recNullIndicator] at h
    | some w0 =>
      cases he : fib.fib_entry with
      | none => simp [h0, he, recNullIndicator] at h
      | some fe =>
        simp only [h0, he] at h ⊢
        simp [createFull] at h ⊢
        exact h

theorem processRecords_snd_isSome (pts : List PricePoint) (fm : Nat → Option IndicatorRow)
    (tstate : TradeState) (wallet : Option WalletData) (b : Bool) :
    (processRecords pts fm tstate wallet (some b)).2.isSome := by
  induction pts generalizing b with
  | nil => simp [processRecords]
  | cons p rest ih =>
    simp only [processRecords]
    have h1 := createEnhancedRecord_snd_isSome p fm tstate wallet b
    rcases Option.isSome_iff_exists.mp h1 with ⟨b', hb'⟩
    rw [hb']
    exact ih b'

theorem processRecords_last_trigger (pts : List PricePoint) (fm : Nat → Option IndicatorRow)
    (tstate : TradeState) (wallet : Option WalletData) (b a : Bool)
    (h : (processRecords pts fm tstate wallet (some b)).1.getLast?.bind
          (fun r => r.trigger_armed) = some a) :
    (processRecords pts fm tstate wallet (some b)).2 = some a := by
  induction pts generalizing b with
  | nil => simp [processRecords] at h
  | cons p rest ih =>
    rcases Option.isSome_iff_exists.mp
      (createEnhancedRecord_snd_isSome p fm tstate wallet b) with ⟨b', hb'⟩
    cases rest with
    | nil =>
      simp only [processRecords] at h ⊢
      simp only [List.getLast?_singleton, Option.some_bind] at h
      exact createEnhancedRecord_trigger_agrees p fm tstate wallet (some b) a h
    | cons q rest' =>
      simp only [processRecords] at h ⊢
      rw [hb'] at h ⊢
      rw [List.getLast?_cons_cons] at h
      exact ih b' h

theorem createEnhancedRecord_resume (p : PricePoint) (fm : Nat → Option IndicatorRow)
    (tstate : TradeState) (wallet : Option WalletData) :
    (createEnhancedRecord p fm tstate wallet none).1 =
      (createEnhancedRecord p fm tstate wallet (some false)).1 ∧
    ((createEnhancedRecord p fm tstate wallet none).2 =
      (createEnhancedRecord p fm tstate wallet (some false)).2 ∨
     ((createEnhancedRecord p fm tstate wallet none).2 = none ∧
      (createEnhancedRecord p fm tstate wallet (some false)).2 = some false)) := by
  unfold createEnhancedRecord
  cases hm : fm (bucketOf p.timestamp) with
  | none => exact ⟨rfl, Or.inr ⟨rfl, rfl⟩⟩
  | some fib =>
    cases h0 : fib.wma_fib_0 with
    | none => simp [h0]
    | some w0 =>
      cases he : fib.fib_entry with
      | none => simp [h0, he]
      | some fe => simp [h0, he, createFull]

theorem processRecords_resume (pts : List PricePoint) (fm : Nat → Option IndicatorRow)
    (tstate : TradeState) (wallet : Option WalletData) :
    ∀ s t : Option Bool, (s = t ∨ (s = none ∧ t = some false)) →
      (processRecords pts fm tstate wallet s).1 = (processRecords pts fm tstate wallet t).1 ∧
      ((processRecords pts fm tstate wallet s).2 = (processRecords pts fm tstate wallet t).2 ∨
       ((processRecords pts fm tstate wallet s).2 = none ∧
        (processRecords pts fm tstate wallet t).2 = some false)) := by
  induction pts with
  | nil =>
    intro s t hst
    rcases hst with h | ⟨h1, h2⟩
    · subst h; exact ⟨rfl, Or.inl rfl⟩
    · subst h1; subst h2; exact ⟨rfl, Or.inr ⟨rfl, rfl⟩⟩
  | cons p rest ih =>
    intro s t hst
    rcases hst with h | ⟨h1, h2⟩
    · subst h; exact ⟨rfl, Or.inl rfl⟩
    · subst h1; subst h2
      have hc := createEnhancedRecord_resume p fm tstate wallet
      have hrec := ih (createEnhancedRecord p fm tstate wallet none).2
        (createEnhancedRecord p fm tstate wallet (some false)).2 hc.2
      simp only [processRecords, hc.1, hrec.1]
      exact ⟨trivial, hrec.2⟩

/-- Records produced while resuming from a null persisted trigger state
are exactly those produced when resuming from DISARMED. -/
theorem processRecords_none_eq_false (pts : List PricePoint) (fm : Nat → Option IndicatorRow)
    (tstate : TradeState) (wallet : Option WalletData) :
    (processRecords pts fm tstate wallet none).1 =
      (processRecords pts fm tstate wallet (some false)).1 :=
  (processRecords_resume pts fm tstate wallet none (some false) (Or.inr ⟨rfl, rfl⟩)).1


/-! ## Projection lemmas for `tick` -/

theorem tick_of_le (st : PipelineState) (history : List PricePoint)
    (fm : Nat → Option IndicatorRow) (tstate : TradeState) (wallet : Option WalletData)
    (h : history.length ≤ st.count) : tick st history fm tstate wallet = st := by
  unfold tick; rw [if_pos h]

theorem tick_count_of_lt (st : PipelineState) (history : List PricePoint)
    (fm : Nat → Option IndicatorRow) (tstate : TradeState) (wallet : Option WalletData)
    (h : st.count < history.length) :
    (tick st history fm tstate wallet).count = history.length := by
  unfold tick; rw [if_neg (not_le.mpr h)]

theorem tick_store_of_lt (st : PipelineState) (history : List PricePoint)
    (fm : Nat → Option IndicatorRow) (tstate : TradeState) (wallet : Option WalletData)
    (h : st.count < history.length) :
    (tick st history fm tstate wallet).store = tickStore st history fm tstate wallet := by
  unfold tick; rw [if_neg (not_le.mpr h)]

theorem tick_snapshot_of_lt (st : PipelineState) (history : List PricePoint)
    (fm : Nat → Option IndicatorRow) (tstate : TradeState) (wallet : Option WalletData)
    (h : st.count < history.length) :
    (tick st history fm tstate wallet).snapshot = tickSnapshot st history fm tstate wallet := by
  unfold tick; rw [if_neg (not_le.mpr h)]

theorem tickStore_length (st : PipelineState) (history : List PricePoint)
    (fm : Nat → Option IndicatorRow) (tstate : TradeState) (wallet : Option WalletData) :
    (tickStore st history fm tstate wallet).length =
      (if 0 < st.count then st.store.length else 0) + (history.length - st.count) := by
  unfold tickStore tickExisting tickNew
  rw [List.length_append, processRecords_length, List.length_drop]
  by_cases hc : 0 < st.count
  · rw [if_pos hc, if_pos hc]
  · rw [if_neg hc, if_neg hc, List.length_nil]

/-! ## Claim C4: idempotence of a re-tick with no new data -/

/-- C4: running `update_price_savant_incremental` a second time with an
unchanged price history appends no new records and leaves the store, the
`last_processed_count` cursor and the persisted trigger snapshot exactly
as they were after the first run. -/
theorem tick_idempotent (st : PipelineState) (history : List PricePoint)
    (fm : Nat → Option IndicatorRow) (tstate : TradeState) (wallet : Option WalletData) :
    tick (tick st history fm tstate wallet) history fm tstate wallet =
      tick st history fm tstate wallet := by
  by_cases hle : history.length ≤ st.count
  · rw [tick_of_le st history fm tstate wallet hle]
    exact tick_of_le st history fm tstate wallet hle
  · have hlt : st.count < history.length := not_le.mp hle
    have hc : (tick st history fm tstate wallet).count = history.length :=
      tick_count_of_lt st history fm tstate wallet hlt
    exact tick_of_le _ history fm tstate wallet (le_of_eq hc.symm)

/-! ## Claim C2: the trigger transition -/

/-- C2: for a price point whose bucket has non-null `wma_fib_0` and
`fib_entry`, the trigger state machine moves to DISARMED whenever
`price > wma_fib_0 * (1 + 0.05)` (regardless of the current state),
else to ARMED whenever `price < fib_entry`, and otherwise keeps its
current value; the persisted `trigger_armed` field equals the new
state. -/
theorem trigger_transition_correct (p : PricePoint) (fm : Nat → Option IndicatorRow)
    (tstate : TradeState) (wallet : Option WalletData) (b : Bool) (fib : IndicatorRow)
    (w0 fe : ℚ) (hfm : fm (bucketOf p.timestamp) = some fib)
    (h0 : fib.wma_fib_0 = some w0) (he : fib.fib_entry = some fe) :
    (createEnhancedRecord p fm tstate wallet (some b)).2 =
      some (if w0 * (1 + 1/20) < p.price then false
            else if p.price < fe then true else b) ∧
    (createEnhancedRecord p fm tstate wallet (some b)).1.trigger_armed =
      (createEnhancedRecord p fm tstate wallet (some b)).2 := by
  have hq : (w0 * (21/20) : ℚ) = w0 * (1 + 1/20) := by ring
  unfold createEnhancedRecord
  rw [hfm]
  simp only [h0, he]
  unfold createFull
  simp only [Option.getD_some, hq]
  exact ⟨trivial, trivial⟩

/-- Witness for C2 at a concrete input: bucket row with
`wma_fib_0 = 10`, `fib_entry = 5`, price 4 arms the trigger. -/
theorem trigger_transition_correct_witness :
    (createEnhancedRecord ⟨0, 4⟩ fmW tstate0 none (some false)).2 =
      some (if (10 : ℚ) * (1 + 1/20) < 4 then false
            else if (4 : ℚ) < 5 then true else false) ∧
    (createEnhancedRecord ⟨0, 4⟩ fmW tstate0 none (some false)).1.trigger_armed =
      (createEnhancedRecord ⟨0, 4⟩ fmW tstate0 none (some false)).2 :=
  trigger_transition_correct ⟨0, 4⟩ fmW tstate0 none false fibRowW 10 5 rfl rfl rfl

/-! ## Claim C9: trigger-state recovery on restart -/

/-- C9: when the store is non-empty (a restart with persisted data), the
incremental update seeds the trigger machine from the `trigger_armed`
field of the last persisted record; a null field (last record's bucket
had no usable indicator data) produces exactly the records of a DISARMED
seed, whatever the in-process trigger state was before the restart. -/
theorem restart_seeding (st : PipelineState) (history : List PricePoint)
    (fm : Nat → Option IndicatorRow) (tstate : TradeState) (wallet : Option WalletData)
    (h1 : 0 < st.count) (h2 : st.count < history.length) :
    (tick st history fm tstate wallet).store =
      st.store ++ (processRecords (history.drop st.count) fm tstate wallet
        (some ((st.store.getLast?.bind (fun r => r.trigger_armed)).getD false))).1 := by
  rw [tick_store_of_lt st history fm tstate wallet h2]
  unfold tickStore tickExisting tickNew tickSeed
  rw [if_pos h1, if_pos h1]
  cases hseed : st.store.getLast?.bind (fun r => r.trigger_armed) with
  | some bb => rfl
  | none =>
    rw [Option.getD_none]
    rw [processRecords_none_eq_false]

/-- Witness for C9: a store holding one null-trigger record, recovered
and continued over one new point. -/
theorem restart_seeding_witness :
    (tick ⟨[recNoWindow ⟨0, 1⟩ tstate0], 1, none⟩ [⟨0, 1⟩, ⟨1, 2⟩]
        (fun _ => none) tstate0 none).store =
      [recNoWindow ⟨0, 1⟩ tstate0] ++
        (processRecords ([(⟨0, 1⟩ : PricePoint), ⟨1, 2⟩].drop 1) (fun _ => none) tstate0 none
          (some ((([recNoWindow ⟨0, 1⟩ tstate0].getLast?.bind
            (fun r => r.trigger_armed))).getD false))).1 :=
  restart_seeding ⟨[recNoWindow ⟨0, 1⟩ tstate0], 1, none⟩ [⟨0, 1⟩, ⟨1, 2⟩]
    (fun _ => none) tstate0 none (by decide) (by decide)

/-! ## Claim C8: the latest-record snapshot -/

/-- C8: a tick that appends at least one record (there are unprocessed
points) republishes the snapshot as exactly the tail element of the
grown store; a tick that appends nothing returns the state — store,
cursor and snapshot — unchanged.  The hypothesis is the reachable-state
invariant that the cursor equals the store length. -/
theorem latest_snapshot (st : PipelineState) (history : List PricePoint)
    (fm : Nat → Option IndicatorRow) (tstate : TradeState) (wallet : Option WalletData)
    (hinv : st.count = st.store.length) :
    (st.count < history.length →
      (tick st history fm tstate wallet).snapshot =
        (tick st history fm tstate wallet).store.getLast? ∧
      st.store.length < (tick st history fm tstate wallet).store.length) ∧
    (history.length ≤ st.count → tick st history fm tstate wallet = st) := by
  constructor
  · intro hlt
    have hlen : (tickStore st history fm tstate wallet).length =
        (if 0 < st.count then st.store.length else 0) + (history.length - st.count) :=
      tickStore_length st history fm tstate wallet
    have hpos : 0 < (tickStore st history fm tstate wallet).length := by
      rw [hlen]
      by_cases hc : 0 < st.count
      · rw [if_pos hc]; omega
      · rw [if_neg hc]; omega
    constructor
    · rw [tick_snapshot_of_lt st history fm tstate wallet hlt,
        tick_store_of_lt st history fm tstate wallet hlt]
      unfold tickSnapshot
      rw [if_neg]
      rw [List.isEmpty_iff]
      intro hnil
      rw [hnil] at hpos
      simp at hpos
    · rw [tick_store_of_lt st history fm tstate wallet hlt, hlen]
      by_cases hc : 0 < st.count
      · rw [if_pos hc, ← hinv]; omega
      · rw [if_neg hc]
        have : st.count = 0 := by omega
        rw [← hinv, this]; omega
  · intro hle
    exact tick_of_le st history fm tstate wallet hle

/-- Witness for C8: the empty state ticked over a single price point. -/
theorem latest_snapshot_witness :
    ((0 : Nat) < 1 →
      (tick emptyState [⟨0, 1⟩] (fun _ => none) tstate0 none).snapshot =
        (tick emptyState [⟨0, 1⟩] (fun _ => none) tstate0 none).store.getLast? ∧
      emptyState.store.length <
        (tick emptyState [⟨0, 1⟩] (fun _ => none) tstate0 none).store.length) ∧
    ((1 : Nat) ≤ 0 → tick emptyState [⟨0, 1⟩] (fun _ => none) tstate0 none = emptyState) := by
  have h := latest_snapshot emptyState [⟨0, 1⟩] (fun _ => none) tstate0 none rfl
  exact h

/-! ## Claim C1: batch versus incremental processing -/

/-- C1 counterexample: two points in the same 5-minute bucket, split
after the first (`k = 1`).  The first pass computes its record from the
one-point candle of the prefix history (close 1); the one-pass run
computes that record from the two-point candle (close 2, high 2).  The
stores differ at the first record, so one-pass and two-pass processing
of the same history are not field-for-field equal. -/
theorem batch_incremental_equiv_cex :
    (tickPipeline (tickPipeline emptyState (ptsPair.take 1) tstate0 none)
        ptsPair tstate0 none).store ≠
      (tickPipeline emptyState ptsPair tstate0 none).store := by
  with_unfolding_all decide

theorem tick_empty_store (history : List PricePoint) (fm : Nat → Option IndicatorRow)
    (tstate : TradeState) (wallet : Option WalletData) (h : 0 < history.length) :
    (tick emptyState history fm tstate wallet).store =
      (processRecords history fm tstate wallet (some false)).1 := by
  have hlt : emptyState.count < history.length := h
  rw [tick_store_of_lt emptyState history fm tstate wallet hlt]
  unfold tickStore tickExisting tickNew tickSeed emptyState
  simp only [lt_self_iff_false, if_false, List.drop_zero, List.nil_append]

/-- C1 amended: the one-pass/two-pass equivalence holds provided both
passes use the indicator map computed from the full history, and the
first pass either persisted nothing or its last persisted record carries
a non-null `trigger_armed` field (the recovered seed of the second pass
then equals the in-process trigger state at the split point). -/
theorem batch_incremental_equiv_amended (pts : List PricePoint)
    (fm : Nat → Option IndicatorRow) (tstate : TradeState) (wallet : Option WalletData)
    (k : Nat) (hk : k ≤ pts.length)
    (hseed : (tick emptyState (pts.take k) fm tstate wallet).store = [] ∨
      ((tick emptyState (pts.take k) fm tstate wallet).store.getLast?.bind
        (fun r => r.trigger_armed)).isSome) :
    (tick (tick emptyState (pts.take k) fm tstate wallet) pts fm tstate wallet).store =
      (tick emptyState pts fm tstate wallet).store := by
  rcases Nat.eq_zero_or_pos k with hk0 | hkpos
  · subst hk0
    have h0 : tick emptyState (pts.take 0) fm tstate wallet = emptyState :=
      tick_of_le emptyState (pts.take 0) fm tstate wallet (by simp [emptyState])
    rw [h0]
  · have htk : (pts.take k).length = k := by
      rw [List.length_take]; omega
    have hlenpos : 0 < pts.length := by omega
    have hstore1 : (tick emptyState (pts.take k) fm tstate wallet).store =
        (processRecords (pts.take k) fm tstate wallet (some false)).1 :=
      tick_empty_store (pts.take k) fm tstate wallet (by omega)
    have hcount : (tick emptyState (pts.take k) fm tstate wallet).count = k := by
      rw [tick_count_of_lt emptyState (pts.take k) fm tstate wallet (by exact lt_of_lt_of_eq hkpos htk.symm), htk]
    have hone : (tick emptyState pts fm tstate wallet).store =
        (processRecords pts fm tstate wallet (some false)).1 :=
      tick_empty_store pts fm tstate wallet hlenpos
    rcases Nat.lt_or_ge k pts.length with hlt | hge
    · -- strict split: the second pass appends the suffix records
      have hlt2 : (tick emptyState (pts.take k) fm tstate wallet).count < pts.length := by
        rw [hcount]; omega
      have hs1ne : (tick emptyState (pts.take k) fm tstate wallet).store ≠ [] := by
        rw [hstore1]
        intro hnil
        have hl := processRecords_length (pts.take k) fm tstate wallet (some false)
        rw [hnil, htk] at hl
        simp at hl
        omega
      rcases hseed with hnil | hsome
      · exact absurd hnil hs1ne
      · rcases Option.isSome_iff_exists.mp hsome with ⟨a, ha⟩
        have hs2 : (processRecords (pts.take k) fm tstate wallet (some false)).2 = some a := by
          apply processRecords_last_trigger (pts.take k) fm tstate wallet false a
          rw [← hstore1]; exact ha
        rw [tick_store_of_lt _ pts fm tstate wallet hlt2]
        unfold tickStore tickExisting tickNew tickSeed
        rw [if_pos (by rw [hcount]; omega), if_pos (by rw [hcount]; omega)]
        rw [hstore1] at ha
        rw [hstore1, hcount, hone, ha]
        conv_rhs => rw [← List.take_append_drop k pts]
        rw [processRecords_append, hs2]
    · -- k = N: the second pass is a no-op and the first pass already
      -- processed the whole history
      have hkl : k = pts.length := le_antisymm hk hge
      have hle2 : pts.length ≤ (tick emptyState (pts.take k) fm tstate wallet).count := by
        rw [hcount]; omega
      rw [tick_of_le _ pts fm tstate wallet hle2, hstore1, hone, hkl, List.take_length]

/-- Witness for C1 amended: a one-point history split at `k = 1`; the
single record of the first pass carries a non-null trigger field. -/
theorem batch_incremental_equiv_amended_witness :
    (tick (tick emptyState ([(⟨0, 4⟩ : PricePoint)].take 1) fmW tstate0 none)
        [⟨0, 4⟩] fmW tstate0 none).store =
      (tick emptyState [⟨0, 4⟩] fmW tstate0 none).store :=
  batch_incremental_equiv_amended [⟨0, 4⟩] fmW tstate0 none 1 (by decide)
    (Or.inr (by with_unfolding_all decide))

/-! ## Helper lemmas about the indicator columns -/

theorem hhAt_none_of_short (cs : List Candle) (i : Nat) (h : cs.length < 66) :
    hhAt cs i = none := by
  unfold hhAt
  rw [if_neg]
  intro ⟨_, _, h66⟩
  omega

theorem llAt_none_of_short (cs : List Candle) (i : Nat) (h : cs.length < 66) :
    llAt cs i = none := by
  unfold llAt
  rw [if_neg]
  intro ⟨_, _, h66⟩
  omega

theorem envMidAt_none_of_short (cs : List Candle) (i : Nat) (h : cs.length < 66) :
    envMidAt cs i = none := by
  unfold envMidAt
  rw [hhAt_none_of_short cs i h]

theorem rollMeanOpt_none_of_none (f : Nat → Option ℚ) (i : Nat)
    (hf : ∀ j, f j = none) : rollMeanOpt f 24 i = none := by
  unfold rollMeanOpt
  rw [if_neg]
  intro ⟨h1, hall⟩
  have h0 := List.all_eq_true.mp hall (f (i + 1 - 24 + 0))
    (List.mem_map.mpr ⟨0, List.mem_range.mpr (by omega), rfl⟩)
  rw [hf (i + 1 - 24 + 0)] at h0
  simp at h0

theorem wma0At_none_of_short (cs : List Candle) (i : Nat) (h : cs.length < 66) :
    wma0At cs i = none :=
  rollMeanOpt_none_of_none (llAt cs) i (fun j => llAt_none_of_short cs j h)

theorem wma50At_none_of_short (cs : List Candle) (i : Nat) (h : cs.length < 66) :
    wma50At cs i = none :=
  rollMeanOpt_none_of_none (envMidAt cs) i (fun j => envMidAt_none_of_short cs j h)

theorem fibEntryAt_none_of_short (cs : List Candle) (i : Nat) (h : cs.length < 66) :
    fibEntryAt cs i = none := by
  unfold fibEntryAt
  rw [wma0At_none_of_short cs i h]

theorem llAt_isSome_of_ready (cs : List Candle) (i : Nat) (h1 : 41 ≤ i)
    (h2 : i < cs.length) (h3 : 66 ≤ cs.length) : (llAt cs i).isSome := by
  unfold llAt
  rw [if_pos ⟨by omega, h2, h3⟩]
  rfl

theorem hhAt_isSome_of_ready (cs : List Candle) (i : Nat) (h1 : 41 ≤ i)
    (h2 : i < cs.length) (h3 : 66 ≤ cs.length) : (hhAt cs i).isSome := by
  unfold hhAt
  rw [if_pos ⟨by omega, h2, h3⟩]
  rfl

theorem envMidAt_isSome_of_ready (cs : List Candle) (i : Nat) (h1 : 41 ≤ i)
    (h2 : i < cs.length) (h3 : 66 ≤ cs.length) : (envMidAt cs i).isSome := by
  unfold envMidAt
  rcases Option.isSome_iff_exists.mp (hhAt_isSome_of_ready cs i h1 h2 h3) with ⟨hh, hhh⟩
  rcases Option.isSome_iff_exists.mp (llAt_isSome_of_ready cs i h1 h2 h3) with ⟨ll, hll⟩
  rw [hhh, hll]
  rfl

theorem rollMeanOpt_isSome (f : Nat → Option ℚ) (i : Nat) (h1 : 23 ≤ i)
    (hf : ∀ j, i + 1 - 24 ≤ j → j ≤ i → (f j).isSome) :
    (rollMeanOpt f 24 i).isSome := by
  unfold rollMeanOpt
  have hall : ((List.range 24).map (fun j => f (i + 1 - 24 + j))).all Option.isSome := by
    rw [List.all_eq_true]
    intro x hx
    rcases List.mem_map.mp hx with ⟨j, hj, rfl⟩
    rw [List.mem_range] at hj
    exact hf (i + 1 - 24 + j) (by omega) (by omega)
  rw [if_pos ⟨by omega, hall⟩]
  rfl

theorem wma0At_isSome_of_ready (cs : List Candle) (i : Nat) (h1 : 64 ≤ i)
    (h2 : i < cs.length) (h3 : 66 ≤ cs.length) : (wma0At cs i).isSome := by
  apply rollMeanOpt_isSome (llAt cs) i (by omega)
  intro j hj1 hj2
  exact llAt_isSome_of_ready cs j (by omega) (by omega) h3

theorem wma50At_isSome_of_ready (cs : List Candle) (i : Nat) (h1 : 64 ≤ i)
    (h2 : i < cs.length) (h3 : 66 ≤ cs.length) : (wma50At cs i).isSome := by
  apply rollMeanOpt_isSome (envMidAt cs) i (by omega)
  intro j hj1 hj2
  exact envMidAt_isSome_of_ready cs j (by omega) (by omega) h3

theorem atrAt_isSome_iff (cs : List Candle) (i : Nat) :
    (atrAt cs i).isSome ↔ 14 ≤ i + 1 := by
  unfold atrAt
  by_cases h : 14 ≤ i + 1
  · rw [if_pos h]; simp [h]
  · rw [if_neg h]; simp [h]

theorem fibEntryAt_isSome_of_ready (cs : List Candle) (i : Nat) (h1 : 64 ≤ i)
    (h2 : i < cs.length) (h3 : 66 ≤ cs.length) : (fibEntryAt cs i).isSome := by
  unfold fibEntryAt
  rcases Option.isSome_iff_exists.mp (wma0At_isSome_of_ready cs i h1 h2 h3) with ⟨w0, hw0⟩
  have ha : (atrAt cs i).isSome := (atrAt_isSome_iff cs i).mpr (by omega)
  rcases Option.isSome_iff_exists.mp ha with ⟨a, haa⟩
  rw [hw0, haa]
  rfl

/-! ## Claim C5: null until 66 candles -/

/-- C5 counterexample: 14 flat candles.  The sequence is shorter than 66
candles, yet the `atr` field of the last candle is non-null (the ATR is
computed outside the 66-candle guard in `update_chart_and_indicators`),
so not every IndicatorRow field is null below 66 candles. -/
theorem null_until_ready_cex :
    cs14flat.length < 66 ∧ ¬ ((rowAt cs14flat 13).atr = none) := by
  with_unfolding_all decide

/-- C5 amended: below 66 candles the `highest_high_42`, `lowest_low_42`,
`wma_fib_0`, `wma_fib_50` and `fib_entry` fields are null for every
candle, while `atr` is null exactly for the first 13 candles (it ignores
the 66-candle guard and is defined once a full 14-candle window exists);
at exactly 66 candles every field is non-null for the latest candle. -/
theorem null_until_ready_amended (cs : List Candle) (i : Nat) :
    (cs.length < 66 →
      (rowAt cs i).highest_high = none ∧ (rowAt cs i).lowest_low = none ∧
      (rowAt cs i).wma_fib_0 = none ∧ (rowAt cs i).wma_fib_50 = none ∧
      (rowAt cs i).fib_entry = none ∧ ((rowAt cs i).atr = none ↔ i + 1 < 14)) ∧
    (cs.length = 66 → i = 65 →
      (rowAt cs i).highest_high.isSome ∧ (rowAt cs i).lowest_low.isSome ∧
      (rowAt cs i).wma_fib_0.isSome ∧ (rowAt cs i).wma_fib_50.isSome ∧
      (rowAt cs i).atr.isSome ∧ (rowAt cs i).fib_entry.isSome) := by
  constructor
  · intro hlen
    refine ⟨hhAt_none_of_short cs i hlen, llAt_none_of_short cs i hlen,
      wma0At_none_of_short cs i hlen, wma50At_none_of_short cs i hlen,
      fibEntryAt_none_of_short cs i hlen, ?_⟩
    show atrAt cs i = none ↔ i + 1 < 14
    unfold atrAt
    by_cases h : 14 ≤ i + 1
    · rw [if_pos h]; simp; omega
    · rw [if_neg h]; simp; omega
  · intro hlen hi
    subst hi
    exact ⟨hhAt_isSome_of_ready cs 65 (by omega) (by omega) (by omega),
      llAt_isSome_of_ready cs 65 (by omega) (by omega) (by omega),
      wma0At_isSome_of_ready cs 65 (by omega) (by omega) (by omega),
      wma50At_isSome_of_ready cs 65 (by omega) (by omega) (by omega),
      (atrAt_isSome_iff cs 65).mpr (by omega),
      fibEntryAt_isSome_of_ready cs 65 (by omega) (by omega) (by omega)⟩

/-- Witness for C5 amended: the short part at 14 flat candles (index 5
has every field null including `atr`; index 13 has non-null `atr`), and
the ready part at 66 flat candles. -/
theorem null_until_ready_amended_witness :
    ((rowAt cs14flat 5).wma_fib_0 = none ∧ ((rowAt cs14flat 5).atr = none ↔ 5 + 1 < 14)) ∧
    ((rowAt cs66flat 65).wma_fib_0.isSome ∧ (rowAt cs66flat 65).fib_entry.isSome) :=
  ⟨⟨((null_until_ready_amended cs14flat 5).1 (by decide)).2.2.1,
    ((null_until_ready_amended cs14flat 5).1 (by decide)).2.2.2.2.2⟩,
   ⟨((null_until_ready_amended cs66flat 65).2 (by decide) rfl).2.2.1,
    ((null_until_ready_amended cs66flat 65).2 (by decide) rfl).2.2.2.2.2⟩⟩

/-! ## Claim C6: the fib-entry formula -/

/-- C6: whenever `wma_fib_0` and `atr` are both non-null,
`fib_entry = max(wma_fib_0 - 1.5 * atr, 0.85 * wma_fib_0)`; whenever
either is null, `fib_entry` is null. -/
theorem fib_entry_formula (cs : List Candle) (i : Nat) :
    (∀ w0 a : ℚ, (rowAt cs i).wma_fib_0 = some w0 → (rowAt cs i).atr = some a →
      (rowAt cs i).fib_entry = some (max (w0 - (3/2) * a) ((17/20) * w0))) ∧
    (((rowAt cs i).wma_fib_0 = none ∨ (rowAt cs i).atr = none) →
      (rowAt cs i).fib_entry = none) := by
  constructor
  · intro w0 a h0 ha
    simp only [rowAt] at h0 ha ⊢
    unfold fibEntryAt
    rw [h0, ha]
    have e1 : w0 - a * (3/2) = w0 - (3/2) * a := by ring
    have e2 : w0 * (17/20) = (17/20) * w0 := by ring
    simp only [e1, e2]
  · intro h
    simp only [rowAt] at h ⊢
    unfold fibEntryAt
    rcases h with h | h
    · rw [h]
    · rw [h]
      cases wma0At cs i <;> rfl

set_option maxRecDepth 100000 in
/-- Witness for C6: at 66 flat candles, `wma_fib_0 = 1`, `atr = 0`,
hence `fib_entry = max(1 - 1.5*0, 0.85*1) = 1`; and on the empty candle
list `fib_entry` is null because `wma_fib_0` is. -/
theorem fib_entry_formula_witness :
    (rowAt cs66flat 65).fib_entry = some (max ((1 : ℚ) - (3/2) * 0) ((17/20) * 1)) ∧
    (rowAt ([] : List Candle) 0).fib_entry = none :=
  ⟨(fib_entry_formula cs66flat 65).1 1 0 (by with_unfolding_all decide)
      (by with_unfolding_all decide),
   (fib_entry_formula [] 0).2 (Or.inl (by with_unfolding_all decide))⟩

/-! ## Claim C7: True Range and ATR -/

/-- C7 counterexample: 14 candles with high 3, low 1, close 2.  The
claim makes True Range undefined for the first candle, so the trailing
14-window ending at index 13 would contain an undefined True Range and
`atr` would be null there.  The code instead computes the first True
Range as `high - low = 2` (the pandas row-wise max skips the NaN
previous-close terms) and yields `atr = 2` already at index 13. -/
theorem true_range_atr_cex :
    cs14wide.length = 14 ∧ (rowAt cs14wide 13).atr = some 2 ∧ trAt cs14wide 0 = 2 := by
  with_unfolding_all decide

/-- C7 amended: True Range of the first candle equals `high - low` (the
previous-close terms are skipped, not the whole value); for every later
candle it is `max(high-low, |high-prev_close|, |low-prev_close|)`; `atr`
is the plain arithmetic mean of True Range over the trailing 14 candles
(no Wilder smoothing), null exactly until index 13 — one candle earlier
than a null first True Range would give. -/
theorem true_range_atr_amended (cs : List Candle) (i : Nat) :
    trAt cs 0 = (cs.getD 0 cdefault).high - (cs.getD 0 cdefault).low ∧
    trAt cs (i + 1) =
      max ((cs.getD (i + 1) cdefault).high - (cs.getD (i + 1) cdefault).low)
        (max |(cs.getD (i + 1) cdefault).high - (cs.getD i cdefault).close|
          |(cs.getD (i + 1) cdefault).low - (cs.getD i cdefault).close|) ∧
    ((rowAt cs i).atr = none ↔ i + 1 < 14) ∧
    (∀ v : ℚ, (rowAt cs i).atr = some v →
      (14 : ℚ) * v = ((List.range 14).map (fun j => trAt cs (i + 1 - 14 + j))).sum) := by
  refine ⟨rfl, rfl, ?_, ?_⟩
  · show atrAt cs i = none ↔ i + 1 < 14
    unfold atrAt
    by_cases h : 14 ≤ i + 1
    · rw [if_pos h]; simp; omega
    · rw [if_neg h]; simp; omega
  · intro v hv
    show (14 : ℚ) * v = _
    have hv' : atrAt cs i = some v := hv
    unfold atrAt at hv'
    by_cases h : 14 ≤ i + 1
    · rw [if_pos h] at hv'
      have := Option.some.inj hv'
      rw [← this]
      field_simp
    · rw [if_neg h] at hv'
      exact absurd hv' (by simp)

/-- Witness for C7 amended at the wide candles: `atr = 2` at index 13
and fourteen True Ranges of 2 sum to 28. -/
theorem true_range_atr_amended_witness :
    ((rowAt cs14wide 13).atr = none ↔ 13 + 1 < 14) ∧
    ((14 : ℚ) * 2 =
      ((List.range 14).map (fun j => trAt cs14wide (13 + 1 - 14 + j))).sum) :=
  ⟨(true_range_atr_amended cs14wide 13).2.2.1,
   (true_range_atr_amended cs14wide 13).2.2.2 2 (by with_unfolding_all decide)⟩

/-! ## Positivity facts about candles built from positive prices -/

theorem foldl_min_le (xs : List ℚ) (a : ℚ) : xs.foldl min a ≤ a := by
  induction xs generalizing a with
  | nil => simp
  | cons x xs ih => exact le_trans (ih (min a x)) (min_le_left a x)

theorem le_foldl_max (xs : List ℚ) (a : ℚ) : a ≤ xs.foldl max a := by
  induction xs generalizing a with
  | nil => simp
  | cons x xs ih => exact le_trans (le_max_left a x) (ih (max a x))

theorem foldl_min_pos (xs : List ℚ) (a : ℚ) (ha : 0 < a) (hxs : ∀ x ∈ xs, 0 < x) :
    0 < xs.foldl min a := by
  induction xs generalizing a with
  | nil => exact ha
  | cons x xs ih =>
    exact ih (min a x) (lt_min ha (hxs x (by simp))) (fun y hy => hxs y (by simp [hy]))

theorem listMin_pos (l : List ℚ) (hne : l ≠ []) (h : ∀ x ∈ l, 0 < x) : 0 < listMin l := by
  cases l with
  | nil => exact absurd rfl hne
  | cons x xs =>
    exact foldl_min_pos xs x (h x (by simp)) (fun y hy => h y (by simp [hy]))

theorem listMin_le_listMax (l : List ℚ) (hne : l ≠ []) : listMin l ≤ listMax l := by
  cases l with
  | nil => exact absurd rfl hne
  | cons x xs => exact le_trans (foldl_min_le xs x) (le_foldl_max xs x)

theorem mem_insertKey (x : Nat) (l : List Nat) (y : Nat) :
    y ∈ insertKey x l ↔ y = x ∨ y ∈ l := by
  induction l with
  | nil => simp [insertKey]
  | cons z zs ih =>
    unfold insertKey
    by_cases h : x ≤ z
    · rw [if_pos h]
      simp
    · rw [if_neg h]
      simp [ih]
      tauto

theorem mem_sortKeys (l : List Nat) (y : Nat) : y ∈ sortKeys l ↔ y ∈ l := by
  induction l with
  | nil => simp [sortKeys]
  | cons z zs ih =>
    unfold sortKeys
    rw [mem_insertKey]
    simp [ih]

theorem buildCandles_shape (pts : List PricePoint) (c : Candle) (hc : c ∈ buildCandles pts) :
    pts.filter (fun p => bucketOf p.timestamp = c.bucket) ≠ [] ∧
    c = mkCandle c.bucket (pts.filter (fun p => bucketOf p.timestamp = c.bucket)) := by
  unfold buildCandles at hc
  rcases List.mem_map.mp hc with ⟨k, hk, hck⟩
  have hbucket : c.bucket = k := by rw [← hck]; rfl
  rw [mem_sortKeys, List.mem_dedup] at hk
  rcases List.mem_map.mp hk with ⟨p, hp, hpk⟩
  constructor
  · intro hnil
    have hmem : p ∈ pts.filter (fun q => bucketOf q.timestamp = c.bucket) := by
      rw [List.mem_filter]
      exact ⟨hp, by rw [hbucket]; exact decide_eq_true hpk⟩
    rw [hnil] at hmem
    exact absurd hmem (List.not_mem_nil p)
  · rw [hbucket]
    exact hck.symm

theorem candle_fields_of_pos (pts : List PricePoint) (hpos : ∀ p ∈ pts, 0 < p.price)
    (c : Candle) (hc : c ∈ buildCandles pts) : 0 < c.low ∧ c.low ≤ c.high := by
  rcases buildCandles_shape pts c hc with ⟨hne, hshape⟩
  have hlow : c.low = listMin ((pts.filter
      (fun p => bucketOf p.timestamp = c.bucket)).map (fun p => p.price)) := by
    rw [hshape]; rfl
  have hhigh : c.high = listMax ((pts.filter
      (fun p => bucketOf p.timestamp = c.bucket)).map (fun p => p.price)) := by
    rw [hshape]; rfl
  have hmne : (pts.filter (fun p => bucketOf p.timestamp = c.bucket)).map
      (fun p => p.price) ≠ [] := by
    intro h
    exact hne (List.map_eq_nil_iff.mp h)
  have hmpos : ∀ x ∈ (pts.filter (fun p => bucketOf p.timestamp = c.bucket)).map
      (fun p => p.price), 0 < x := by
    intro x hx
    rcases List.mem_map.mp hx with ⟨p, hp, rfl⟩
    exact hpos p (List.mem_of_mem_filter hp)
  constructor
  · rw [hlow]
    exact listMin_pos _ hmne hmpos
  · rw [hlow, hhigh]
    exact listMin_le_listMax _ hmne

theorem candle_getD_of_pos (pts : List PricePoint) (hpos : ∀ p ∈ pts, 0 < p.price)
    (i : Nat) (hi : i < (buildCandles pts).length) :
    0 < ((buildCandles pts).getD i cdefault).low ∧
    ((buildCandles pts).getD i cdefault).low ≤ ((buildCandles pts).getD i cdefault).high := by
  rw [List.getD_eq_getElem (buildCandles pts) cdefault hi]
  exact candle_fields_of_pos pts hpos _ (List.getElem_mem hi)

theorem trAt_nonneg (pts : List PricePoint) (hpos : ∀ p ∈ pts, 0 < p.price)
    (i : Nat) (hi : i < (buildCandles pts).length) :
    0 ≤ trAt (buildCandles pts) i := by
  cases i with
  | zero =>
    have h := candle_getD_of_pos pts hpos 0 hi
    have ht : trAt (buildCandles pts) 0 =
        ((buildCandles pts).getD 0 cdefault).high -
          ((buildCandles pts).getD 0 cdefault).low := rfl
    rw [ht]
    linarith [h.2]
  | succ j =>
    have h := candle_getD_of_pos pts hpos (j + 1) hi
    have ht : trAt (buildCandles pts) (j + 1) =
        max (((buildCandles pts).getD (j + 1) cdefault).high -
            ((buildCandles pts).getD (j + 1) cdefault).low)
          (max |((buildCandles pts).getD (j + 1) cdefault).high -
              ((buildCandles pts).getD j cdefault).close|
            |((buildCandles pts).getD (j + 1) cdefault).low -
              ((buildCandles pts).getD j cdefault).close|) := rfl
    rw [ht]
    exact le_max_of_le_left (by linarith [h.2])

theorem atrAt_nonneg (pts : List PricePoint) (hpos : ∀ p ∈ pts, 0 < p.price)
    (i : Nat) (hi : i < (buildCandles pts).length) (a : ℚ)
    (ha : atrAt (buildCandles pts) i = some a) : 0 ≤ a := by
  unfold atrAt at ha
  by_cases h : 14 ≤ i + 1
  · rw [if_pos h] at ha
    have hsum : 0 ≤ ((List.range 14).map
        (fun j => trAt (buildCandles pts) (i + 1 - 14 + j))).sum := by
      apply List.sum_nonneg
      intro x hx
      rcases List.mem_map.mp hx with ⟨j, hj, rfl⟩
      rw [List.mem_range] at hj
      exact trAt_nonneg pts hpos (i + 1 - 14 + j) (by omega)
    rw [← Option.some.inj ha]
    positivity
  · rw [if_neg h] at ha
    exact absurd ha (by simp)

theorem llAt_pos (pts : List PricePoint) (hpos : ∀ p ∈ pts, 0 < p.price)
    (i : Nat) (v : ℚ) (hv : llAt (buildCandles pts) i = some v) : 0 < v := by
  unfold llAt at hv
  by_cases h : 42 ≤ i + 1 ∧ i < (buildCandles pts).length ∧ 66 ≤ (buildCandles pts).length
  · rw [if_pos h] at hv
    rw [← Option.some.inj hv]
    apply listMin_pos
    · simp
    · intro x hx
      rcases List.mem_map.mp hx with ⟨j, hj, rfl⟩
      rw [List.mem_range] at hj
      exact (candle_getD_of_pos pts hpos (i + 1 - 42 + j) (by omega)).1
  · rw [if_neg h] at hv
    exact absurd hv (by simp)

theorem wma0At_pos (pts : List PricePoint) (hpos : ∀ p ∈ pts, 0 < p.price)
    (i : Nat) (v : ℚ) (hv : wma0At (buildCandles pts) i = some v) : 0 < v := by
  unfold wma0At rollMeanOpt at hv
  by_cases h : 24 ≤ i + 1 ∧ ((List.range 24).map
      (fun j => llAt (buildCandles pts) (i + 1 - 24 + j))).all Option.isSome
  · rw [if_pos h] at hv
    have hsum : 0 < ((List.range 24).map
        (fun j => (llAt (buildCandles pts) (i + 1 - 24 + j)).getD 0)).sum := by
      apply List.sum_pos
      · intro x hx
        rcases List.mem_map.mp hx with ⟨j, hj, rfl⟩
        rw [List.mem_range] at hj
        have hs := List.all_eq_true.mp h.2 (llAt (buildCandles pts) (i + 1 - 24 + j))
          (List.mem_map.mpr ⟨j, List.mem_range.mpr hj, rfl⟩)
        rcases Option.isSome_iff_exists.mp hs with ⟨u, hu⟩
        rw [hu, Option.getD_some]
        exact llAt_pos pts hpos (i + 1 - 24 + j) u hu
      · simp
    rw [← Option.some.inj hv]
    positivity
  · rw [if_neg h] at hv
    exact absurd hv (by simp)

theorem lookupRow_mem (cs : List Candle) (rows : List IndicatorRow) (key : Nat)
    (r : IndicatorRow) (h : lookupRow cs rows key = some r) : r ∈ rows := by
  induction cs generalizing rows with
  | nil => simp [lookupRow] at h
  | cons c cs' ih =>
    cases rows with
    | nil => simp [lookupRow] at h
    | cons r0 rs' =>
      unfold lookupRow at h
      by_cases hb : c.bucket = key
      · rw [if_pos hb] at h
        rw [← Option.some.inj h]
        simp
      · rw [if_neg hb] at h
        exact List.mem_cons_of_mem r0 (ih rs' h)

theorem fibMapOf_row (pts : List PricePoint) (key : Nat) (fib : IndicatorRow)
    (h : fibMapOf pts key = some fib) :
    ∃ i, i < (buildCandles pts).length ∧ fib = rowAt (buildCandles pts) i := by
  unfold fibMapOf at h
  have hmem := lookupRow_mem _ _ _ _ h
  unfold calcIndicators at hmem
  rcases List.mem_map.mp hmem with ⟨i, hi, hfib⟩
  exact ⟨i, List.mem_range.mp hi, hfib.symm⟩

/-- The core invariant behind C10 and C3: every non-null
`(wma_fib_0, fib_entry)` pair produced by the pipeline from strictly
positive prices satisfies `0 < wma_fib_0` and `fib_entry ≤ wma_fib_0`. -/
theorem fibMap_invariant (pts : List PricePoint) (key : Nat) (fib : IndicatorRow)
    (w0 fe : ℚ) (hpos : ∀ p ∈ pts, 0 < p.price)
    (h1 : fibMapOf pts key = some fib) (h2 : fib.wma_fib_0 = some w0)
    (h3 : fib.fib_entry = some fe) : 0 < w0 ∧ fe ≤ w0 := by
  rcases fibMapOf_row pts key fib h1 with ⟨i, hi, hfib⟩
  subst hfib
  simp only [rowAt] at h2 h3
  have hw0 : 0 < w0 := wma0At_pos pts hpos i w0 h2
  refine ⟨hw0, ?_⟩
  unfold fibEntryAt at h3
  rw [h2] at h3
  cases ha : atrAt (buildCandles pts) i with
  | none => rw [ha] at h3; exact absurd h3 (by simp)
  | some a =>
    rw [ha] at h3
    have hanneg : 0 ≤ a := atrAt_nonneg pts hpos i hi a ha
    have hfe : fe = max (w0 - a * (3/2)) (w0 * (17/20)) := (Option.some.inj h3).symm
    rw [hfe]
    apply max_le
    · linarith
    · nlinarith

/-! ## Claim C10: fib-entry never exceeds fib-0 -/

/-- C10: for every bucket of the pipeline's indicator map over strictly
positive prices whose `wma_fib_0` and `fib_entry` are non-null,
`fib_entry ≤ wma_fib_0`; consequently a price below `fib_entry` (the
ARMED condition) is also below `wma_fib_0`. -/
theorem fib_entry_below_fib0 (pts : List PricePoint) (key : Nat) (fib : IndicatorRow)
    (w0 fe : ℚ) (hpos : ∀ p ∈ pts, 0 < p.price)
    (h1 : fibMapOf pts key = some fib) (h2 : fib.wma_fib_0 = some w0)
    (h3 : fib.fib_entry = some fe) :
    fe ≤ w0 ∧ ∀ q : ℚ, q < fe → q < w0 := by
  have h := fibMap_invariant pts key fib w0 fe hpos h1 h2 h3
  exact ⟨h.2, fun q hq => lt_of_lt_of_le hq h.2⟩

set_option maxRecDepth 1000000 in
/-- Witness for C10: 66 one-per-bucket flat price points; the last
bucket's row has `wma_fib_0 = 1` and `fib_entry = 1`. -/
theorem fib_entry_below_fib0_witness :
    (1 : ℚ) ≤ 1 ∧ ∀ q : ℚ, q < 1 → q < 1 :=
  fib_entry_below_fib0 pts66 (300 * 65) fibW66 1 1
    (by with_unfolding_all decide) (by with_unfolding_all decide) rfl rfl

/-! ## Claim C3: buy-signal causality -/

/-- C3: in a processed sequence over strictly positive prices, a record's
`buy_signal` can only be true when the trigger state entering that record
was ARMED and the record's price exceeds its `wma_fib_0` (arming and
firing cannot happen on the same tick because `fib_entry ≤ wma_fib_0`);
and `buy_signal` is false at every record whose `wma_fib_0` or
`fib_entry` is null. -/
theorem buy_signal_causality (pts pre post : List PricePoint) (p : PricePoint)
    (tstate : TradeState) (wallet : Option WalletData) (prev s : Option Bool)
    (hpos : ∀ q ∈ pts, 0 < q.price) (hsplit : pts = pre ++ p :: post)
    (hs : s = (processRecords pre (fibMapOf pts) tstate wallet prev).2) :
    ((createEnhancedRecord p (fibMapOf pts) tstate wallet s).1.buy_signal = true →
      s = some true ∧
      ∃ w0, (createEnhancedRecord p (fibMapOf pts) tstate wallet s).1.wma_fib_0 = some w0 ∧
        w0 < p.price) ∧
    (((createEnhancedRecord p (fibMapOf pts) tstate wallet s).1.wma_fib_0 = none ∨
      (createEnhancedRecord p (fibMapOf pts) tstate wallet s).1.fib_entry = none) →
      (createEnhancedRecord p (fibMapOf pts) tstate wallet s).1.buy_signal = false) := by
  unfold createEnhancedRecord
  cases hm : fibMapOf pts (bucketOf p.timestamp) with
  | none =>
    constructor
    · intro hbuy
      simp [recNoWindow] at hbuy
    · intro _
      rfl
  | some fib =>
    cases h0 : fib.wma_fib_0 with
    | none =>
      constructor
      · intro hbuy
        simp [h0, recNullIndicator] at hbuy
      · intro _
        simp [h0, recNullIndicator]
    | some w0 =>
      cases he : fib.fib_entry with
      | none =>
        constructor
        · intro hbuy
          simp [h0, he, recNullIndicator] at hbuy
        · intro _
          simp [h0, he, recNullIndicator]
      | some fe =>
        have hinv := fibMap_invariant pts (bucketOf p.timestamp) fib w0 fe hpos hm h0 he
        constructor
        · intro hbuy
          simp only [h0, he, createFull] at hbuy ⊢
          rw [Bool.and_eq_true, decide_eq_true_eq] at hbuy
          obtain ⟨harm, hw⟩ := hbuy
          refine ⟨?_, w0, rfl, hw⟩
          split at harm
          · exact absurd harm (by simp)
          · split at harm
            · rename_i hno hfe
              exfalso
              have hlt : p.price < w0 := lt_of_lt_of_le hfe hinv.2
              linarith
            · cases s with
              | none => simp at harm
              | some b =>
                rw [Option.getD_some] at harm
                rw [harm]
        · intro hnull
          rcases hnull with hn | hn <;> simp [h0, he, createFull] at hn

/-- Witness for C3: a one-point history (price 1, bucket below the
window horizon), entering state DISARMED. -/
theorem buy_signal_causality_witness :
    ((createEnhancedRecord ⟨0, 1⟩ (fibMapOf [⟨0, 1⟩]) tstate0 none
        (some false)).1.buy_signal = true →
      (some false : Option Bool) = some true ∧
      ∃ w0, (createEnhancedRecord ⟨0, 1⟩ (fibMapOf [⟨0, 1⟩]) tstate0 none
        (some false)).1.wma_fib_0 = some w0 ∧ w0 < (1 : ℚ)) ∧
    (((createEnhancedRecord ⟨0, 1⟩ (fibMapOf [⟨0, 1⟩]) tstate0 none
        (some false)).1.wma_fib_0 = none ∨
      (createEnhancedRecord ⟨0, 1⟩ (fibMapOf [⟨0, 1⟩]) tstate0 none
        (some false)).1.fib_entry = none) →
      (createEnhancedRecord ⟨0, 1⟩ (fibMapOf [⟨0, 1⟩]) tstate0 none
        (some false)).1.buy_signal = false) :=
  buy_signal_causality [⟨0, 1⟩] [] [] ⟨0, 1⟩ tstate0 none (some false) (some false)
    (by with_unfolding_all decide) rfl rfl
